import Mathlib

/-!
Shallow embedding of the RAG knowledge base in `phase2_src/rag_kb.py`
(`class RAGKB`), together with proofs of the specification claims about it.

Python strings are modelled as Lean `String` (both are sequences of unicode
code points), Python `float` values produced by the hash embedding as exact
rationals `ℚ` (every value the code produces is of the form k/255 with
k ≤ 255, or 0.0), byte values as `Nat`, and fallible external calls
(the Azure embedding provider, the faiss index search) as `Option`-valued
functions.
-/

namespace RAGKB

/-- Python whitespace characters (the `\s` class / `str.strip` / `str.split`
    default class, restricted to the characters that occur in this corpus). -/
def pyIsSpace (c : Char) : Bool :=
  c = ' ' || c = '\t' || c = '\n' || c = '\r' || c = '\x0b' || c = '\x0c'

/-- `needle` occurs as a contiguous sublist of the argument. -/
def listInfix (needle : List Char) : List Char → Bool
  | [] => needle.isEmpty
  | c :: cs => needle.isPrefixOf (c :: cs) || listInfix needle cs

/-- Python `sub in hay` substring containment. -/
def strContains (hay sub : String) : Bool :=
  listInfix sub.toList hay.toList

/-- Python `str.strip()` on a character list. -/
def pyStripL (l : List Char) : List Char :=
  ((l.dropWhile pyIsSpace).reverse.dropWhile pyIsSpace).reverse

/-- Python `str.strip()`. -/
def pyStrip (s : String) : String :=
  String.mk (pyStripL s.toList)

/-- Python `re.sub(r'\s+', ' ', s)`: collapse every whitespace run to one space. -/
def collapseWsAux : Bool → List Char → List Char
  | _, [] => []
  | prevSpace, c :: cs =>
    if pyIsSpace c then
      if prevSpace then collapseWsAux true cs
      else ' ' :: collapseWsAux true cs
    else c :: collapseWsAux false cs

/-- `re.sub(r'\s+', ' ', s)` on strings. -/
def collapseWs (s : String) : String :=
  String.mk (collapseWsAux false s.toList)

/-- Python `str.split()` (split on whitespace runs, dropping empty pieces). -/
def pySplitWsAux : List Char → List Char → List (List Char)
  | [], acc => if acc.isEmpty then [] else [acc.reverse]
  | c :: cs, acc =>
    if pyIsSpace c then
      if acc.isEmpty then pySplitWsAux cs []
      else acc.reverse :: pySplitWsAux cs []
    else pySplitWsAux cs (c :: acc)

/-- Python `str.split()`. -/
def pySplitWs (s : String) : List String :=
  (pySplitWsAux s.toList []).map String.mk

/-- Python `str.lower()` (ASCII case folding; the Hebrew block has no case). -/
def pyLower (s : String) : String :=
  String.mk (s.toList.map Char.toLower)

/-- Python `content.split('\n')` (keeps empty pieces). -/
def splitNlAux : List Char → List Char → List String
  | [], acc => [String.mk acc.reverse]
  | c :: cs, acc =>
    if c = '\n' then String.mk acc.reverse :: splitNlAux cs []
    else splitNlAux cs (c :: acc)

def pySplitNl (s : String) : List String := splitNlAux s.toList []

/-! ## MD5 (`hashlib.md5`), used by `_create_simple_embedding` -/

/-- Python `text.encode()`: UTF-8 bytes of a string. -/
def utf8Bytes (s : String) : List Nat :=
  s.toList.flatMap (fun c =>
    let n := c.toNat
    if n < 0x80 then [n]
    else if n < 0x800 then [0xC0 ||| (n >>> 6), 0x80 ||| (n &&& 0x3F)]
    else if n < 0x10000 then
      [0xE0 ||| (n >>> 12), 0x80 ||| ((n >>> 6) &&& 0x3F), 0x80 ||| (n &&& 0x3F)]
    else
      [0xF0 ||| (n >>> 18), 0x80 ||| ((n >>> 12) &&& 0x3F),
       0x80 ||| ((n >>> 6) &&& 0x3F), 0x80 ||| (n &&& 0x3F)])

/-- MD5 per-round constants (RFC 1321). -/
def md5K : List Nat :=
  [0xd76aa478, 0xe8c7b756, 0x242070db, 0xc1bdceee,
   0xf57c0faf, 0x4787c62a, 0xa8304613, 0xfd469501,
   0x698098d8, 0x8b44f7af, 0xffff5bb1, 0x895cd7be,
   0x6b901122, 0xfd987193, 0xa679438e, 0x49b40821,
   0xf61e2562, 0xc040b340, 0x265e5a51, 0xe9b6c7aa,
   0xd62f105d, 0x02441453, 0xd8a1e681, 0xe7d3fbc8,
   0x21e1cde6, 0xc33707d6, 0xf4d50d87, 0x455a14ed,
   0xa9e3e905, 0xfcefa3f8, 0x676f02d9, 0x8d2a4c8a,
   0xfffa3942, 0x8771f681, 0x6d9d6122, 0xfde5380c,
   0xa4beea44, 0x4bdecfa9, 0xf6bb4b60, 0xbebfbc70,
   0x289b7ec6, 0xeaa127fa, 0xd4ef3085, 0x04881d05,
   0xd9d4d039, 0xe6db99e5, 0x1fa27cf8, 0xc4ac5665,
   0xf4292244, 0x432aff97, 0xab9423a7, 0xfc93a039,
   0x655b59c3, 0x8f0ccc92, 0xffeff47d, 0x85845dd1,
   0x6fa87e4f, 0xfe2ce6e0, 0xa3014314, 0x4e0811a1,
   0xf7537e82, 0xbd3af235, 0x2ad7d2bb, 0xeb86d391]

/-- MD5 per-round left-rotation amounts (RFC 1321). -/
def md5S : List Nat :=
  [7, 12, 17, 22, 7, 12, 17, 22, 7, 12, 17, 22, 7, 12, 17, 22,
   5, 9, 14, 20, 5, 9, 14, 20, 5, 9, 14, 20, 5, 9, 14, 20,
   4, 11, 16, 23, 4, 11, 16, 23, 4, 11, 16, 23, 4, 11, 16, 23,
   6, 10, 15, 21, 6, 10, 15, 21, 6, 10, 15, 21, 6, 10, 15, 21]

/-- 32-bit left rotation. -/
def rotl32 (x s : Nat) : Nat :=
  ((x <<< s) ||| (x >>> (32 - s))) % 4294967296

/-- 32-bit complement (valid for `x < 2^32`). -/
def not32 (x : Nat) : Nat := 4294967295 - x

/-- MD5 padding: 0x80, zeros to 56 mod 64, then the 64-bit little-endian
    bit length. -/
def md5Pad (msg : List Nat) : List Nat :=
  let lenBits := (8 * msg.length) % 18446744073709551616
  let zeros := (119 - msg.length % 64) % 64
  msg ++ 0x80 :: List.replicate zeros 0 ++
    (List.range 8).map (fun i => (lenBits >>> (8 * i)) % 256)

/-- The sixteen little-endian 32-bit words of one 64-byte block. -/
def blockWords (block : List Nat) : List Nat :=
  (List.range 16).map (fun j =>
    block.getD (4 * j) 0 + 256 * block.getD (4 * j + 1) 0 +
    65536 * block.getD (4 * j + 2) 0 + 16777216 * block.getD (4 * j + 3) 0)

/-- One of the 64 MD5 operations. -/
def md5Round (M : List Nat) (st : Nat × Nat × Nat × Nat) (i : Nat) :
    Nat × Nat × Nat × Nat :=
  let a := st.1
  let b := st.2.1
  let c := st.2.2.1
  let d := st.2.2.2
  let f :=
    if i < 16 then (b &&& c) ||| (not32 b &&& d)
    else if i < 32 then (d &&& b) ||| (not32 d &&& c)
    else if i < 48 then b ^^^ c ^^^ d
    else c ^^^ (b ||| not32 d)
  let g :=
    if i < 16 then i
    else if i < 32 then (5 * i + 1) % 16
    else if i < 48 then (3 * i + 5) % 16
    else 7 * i % 16
  let f2 := (f + a + md5K.getD i 0 + M.getD g 0) % 4294967296
  (d, (b + rotl32 f2 (md5S.getD i 0)) % 4294967296, b, c)

/-- MD5 compression of one 64-byte block. -/
def md5ProcessBlock (st : Nat × Nat × Nat × Nat) (block : List Nat) :
    Nat × Nat × Nat × Nat :=
  let M := blockWords block
  let r := (List.range 64).foldl (md5Round M) st
  ((st.1 + r.1) % 4294967296, (st.2.1 + r.2.1) % 4294967296,
   (st.2.2.1 + r.2.2.1) % 4294967296, (st.2.2.2 + r.2.2.2) % 4294967296)

/-- MD5 of a byte sequence: the four final state words. -/
def md5Words (msg : List Nat) : Nat × Nat × Nat × Nat :=
  let padded := md5Pad msg
  (List.range (padded.length / 64)).foldl
    (fun st i => md5ProcessBlock st ((padded.drop (64 * i)).take 64))
    (0x67452301, 0xefcdab89, 0x98badcfe, 0x10325476)

/-- Little-endian byte serialization of a 32-bit word. -/
def wordLEBytes (w : Nat) : List Nat :=
  [w % 256, w / 256 % 256, w / 65536 % 256, w / 16777216 % 256]

/-- The 16 digest bytes of `hashlib.md5(text.encode())`. -/
def md5Bytes (s : String) : List Nat :=
  let r := md5Words (utf8Bytes s)
  wordLEBytes r.1 ++ wordLEBytes r.2.1 ++ wordLEBytes r.2.2.1 ++ wordLEBytes r.2.2.2

/-- The sixteen lowercase hex characters. -/
def hexChars : List Char := "0123456789abcdef".toList

/-- Two lowercase hex characters of one byte. -/
def byteHex (b : Nat) : List Char :=
  [hexChars.getD (b / 16) '0', hexChars.getD (b % 16) '0']

/-- `hashlib.md5(text.encode()).hexdigest()` as a character list. -/
def md5HexDigest (s : String) : List Char :=
  (md5Bytes s).flatMap byteHex

/-- Python `int(c, 16)` for one hex digit (Python raises on any other
    character; only lowercase hex digits ever reach this call site, since the
    input is an `md5` hexdigest). -/
def hexVal (c : Char) : Nat :=
  if 48 ≤ c.toNat ∧ c.toNat ≤ 57 then c.toNat - 48
  else if 97 ≤ c.toNat ∧ c.toNat ≤ 102 then c.toNat - 87
  else if 65 ≤ c.toNat ∧ c.toNat ≤ 70 then c.toNat - 55
  else 0

/-- The `for i in range(0, len(hash_hex), 2)` loop of
    `_create_simple_embedding`: take the hex characters two at a time,
    stop as soon as 128 values have been produced, and append
    `int(hex_pair, 16) / 255.0` for each pair. -/
def hexPairLoop : List Char → Nat → List ℚ
  | [], _ => []
  | c1 :: c2 :: rest, n =>
    if 128 ≤ n then []
    else ((16 * hexVal c1 + hexVal c2 : ℕ) : ℚ) / 255 :: hexPairLoop rest (n + 1)
  | [c], n =>
    if 128 ≤ n then [] else [((hexVal c : ℕ) : ℚ) / 255]

/-- `RAGKB._create_simple_embedding`: deterministic hash-based 128-dim
    embedding (md5 hexdigest pairs scaled into [0,1], zero-padded to 128). -/
def create_simple_embedding (text : String) : List ℚ :=
  let hex := md5HexDigest text
  let emb := hexPairLoop hex 0
  (emb ++ List.replicate (128 - emb.length) 0).take 128

/-! ## `_clean_html` -/

/-- Find the first occurrence of `needle` and return the remainder after it
    (the `.*?</tag>` part of the block regex, DOTALL, non-greedy). -/
def dropThroughFirst (needle : List Char) : Nat → List Char → Option (List Char)
  | 0, _ => none
  | fuel + 1, cs =>
    if needle.isPrefixOf cs then some (cs.drop needle.length)
    else
      match cs with
      | [] => none
      | _ :: t => dropThroughFirst needle fuel t

/-- Match `<tag[^>]*>.*?</tag>` anchored at the start of `cs`; returns the
    remainder after the whole match, if it matches here. -/
def matchBlockAt (openTag closeTag : List Char) (cs : List Char) : Option (List Char) :=
  if openTag.isPrefixOf cs then
    let r1 := cs.drop openTag.length
    let r2 := r1.dropWhile (fun c => c ≠ '>')
    match r2 with
    | '>' :: r3 => dropThroughFirst closeTag (r3.length + 1) r3
    | _ => none
  else none

/-- `re.sub(r'<tag[^>]*>.*?</tag>', '', s, flags=re.DOTALL)`: leftmost,
    non-overlapping removal, continuing after each match. -/
def removeBlocksAux (openTag closeTag : List Char) : Nat → List Char → List Char
  | 0, cs => cs
  | _ + 1, [] => []
  | fuel + 1, c :: cs =>
    match matchBlockAt openTag closeTag (c :: cs) with
    | some rest => removeBlocksAux openTag closeTag fuel rest
    | none => c :: removeBlocksAux openTag closeTag fuel cs

def removeBlocks (openTag closeTag : String) (s : List Char) : List Char :=
  removeBlocksAux openTag.toList closeTag.toList s.length s

/-- `re.sub(r'<[^>]+>', ' ', s)`: replace each tag with one space. -/
def stripTagsAux : Nat → List Char → List Char
  | 0, cs => cs
  | _ + 1, [] => []
  | fuel + 1, c :: cs =>
    if c = '<' then
      let inner := cs.takeWhile (fun x => x ≠ '>')
      match cs.drop inner.length with
      | '>' :: rest =>
        if inner.isEmpty then c :: stripTagsAux fuel cs
        else ' ' :: stripTagsAux fuel rest
      | _ => c :: stripTagsAux fuel cs
    else c :: stripTagsAux fuel cs

/-- `RAGKB._clean_html`: drop script/style blocks, strip tags, collapse
    whitespace, trim. -/
def clean_html (html : String) : String :=
  let noScript := removeBlocks "<script" "</script>" html.toList
  let noStyle := removeBlocks "<style" "</style>" noScript
  let text := stripTagsAux noStyle.length noStyle
  pyStrip (collapseWs (String.mk text))

/-! ## Chunks and the entity chunk builder -/

/-- The chunk dictionaries produced by `RAGKB._extract_hmo_chunk`. -/
structure Chunk where
  content : String
  service : String
  chunk_type : String
  chunk_id : String
  hmo : String
  hmo_hebrew : String
  description : String
deriving DecidableEq, Repr

def defaultChunk : Chunk := ⟨"", "", "", "", "", "", ""⟩

instance : Inhabited Chunk := ⟨defaultChunk⟩

/-- The three tracked HMO labels checked by the section scanner. -/
def otherHmoLabels : List String := ["מכבי", "מאוחדת", "כללית"]

/-- The first loop of `_find_hmo_specific_content`: on a line containing the
    HMO label restart the section at that line; once inside a section, stop at
    a line mentioning a different HMO, otherwise keep appending lines. -/
def hmoSectionLoop (hmo : String) : List String → String → Bool → String
  | [], cur, _ => cur
  | line :: rest, cur, inSec =>
    if strContains line hmo then hmoSectionLoop hmo rest line true
    else if inSec then
      if (otherHmoLabels.any fun o => strContains line o) && !(strContains line hmo)
      then cur
      else hmoSectionLoop hmo rest (cur ++ "\n" ++ line) true
    else hmoSectionLoop hmo rest cur false

def websiteKeywords : List String :=
  ["אתר", "website", "Website", "לפרטים נוספים", "מידע נוסף", "contact", "Contact"]

/-- `RAGKB._find_website_sections`: lines with a website keyword plus up to
    four following lines. -/
def find_website_sections (content : String) : List String :=
  let sections := pySplitNl content
  (List.range sections.length).foldl
    (fun acc i =>
      if websiteKeywords.any (fun kw => strContains (sections.getD i "") kw) then
        acc ++ ((sections.take (i + 5)).drop i)
      else acc) []

/-- The mention-window pass of `_find_hmo_specific_content`: two lines before
    through two lines after every line mentioning the HMO. -/
def hmoMentions (hmo : String) (sections : List String) : List String :=
  (List.range sections.length).foldl
    (fun acc i =>
      if strContains (sections.getD i "") hmo then
        acc ++ ((sections.take (i + 3)).drop (i - 2))
      else acc) []

/-- `RAGKB._find_hmo_specific_content`. -/
def find_hmo_specific_content (content : String) (hmo_hebrew : String) : String :=
  let sections := pySplitNl content
  let current_section := hmoSectionLoop hmo_hebrew sections "" false
  if current_section ≠ "" then pyStrip (collapseWs current_section)
  else
    let mentions := hmoMentions hmo_hebrew sections
    if mentions ≠ [] then
      let withSites := mentions ++ find_website_sections content
      pyStrip (collapseWs (String.intercalate "\n" withSites))
    else "מידע כללי על שירותים עבור " ++ hmo_hebrew

/-- A character allowed in the URL regex body `[^\s<>"]`. -/
def urlChar (c : Char) : Bool :=
  !(pyIsSpace c || c = '<' || c = '>' || c = '"')

/-- Match `https?://[^\s<>"]+` anchored at `cs`: the matched URL plus the
    remainder. -/
def matchUrlAt (cs : List Char) : Option (String × List Char) :=
  let go (pre : List Char) : Option (String × List Char) :=
    if pre.isPrefixOf cs then
      let rest := cs.drop pre.length
      let body := rest.takeWhile urlChar
      if body.isEmpty then none
      else some (String.mk (pre ++ body), rest.drop body.length)
    else none
  match go "https://".toList with
  | some r => some r
  | none => go "http://".toList

/-- `re.findall` for the URL pattern: leftmost, non-overlapping matches. -/
def findUrlsAux : Nat → List Char → List String
  | 0, _ => []
  | _ + 1, [] => []
  | fuel + 1, c :: cs =>
    match matchUrlAt (c :: cs) with
    | some (url, rest) => url :: findUrlsAux fuel rest
    | none => findUrlsAux fuel cs

def hmoUrlKeywords : List String :=
  ["maccabi", "meuhedet", "clalit", "מכבי", "מאוחדת", "כללית"]

/-- `RAGKB._extract_website_info`. -/
def extract_website_info (content : String) (_hmo_hebrew : String) : String :=
  let websites := findUrlsAux content.toList.length content.toList
  let hmo_websites := websites.filter
    (fun w => hmoUrlKeywords.any fun kw => strContains (pyLower w) kw)
  if hmo_websites ≠ [] then "אתר אינטרנט: " ++ String.intercalate ", " hmo_websites
  else ""

/-- Case-insensitive (`re.IGNORECASE`) prefix test. -/
def ciPrefixOf (pre cs : List Char) : Bool :=
  (pre.map Char.toLower).isPrefixOf (cs.map Char.toLower)

def phoneBodyChar (c : Char) : Bool :=
  ('0' ≤ c && c ≤ '9') || c = '-' || c = '*'

/-- Match `(?:טלפון|phone|Phone):\s*([0-9\-\*]+)` (IGNORECASE) at `cs`:
    returns the captured group and the remainder.  The `Phone` alternative is
    subsumed by the case-insensitive `phone` branch. -/
def matchPhoneAt (cs : List Char) : Option (String × List Char) :=
  let tryKw (kw : List Char) : Option (String × List Char) :=
    if ciPrefixOf kw cs then
      match cs.drop kw.length with
      | ':' :: r1 =>
        let r2 := r1.dropWhile pyIsSpace
        let digits := r2.takeWhile phoneBodyChar
        if digits.isEmpty then none
        else some (String.mk digits, r2.drop digits.length)
      | _ => none
    else none
  match tryKw "טלפון".toList with
  | some r => some r
  | none => tryKw "phone".toList

def findPhonesAux : Nat → List Char → List String
  | 0, _ => []
  | _ + 1, [] => []
  | fuel + 1, c :: cs =>
    match matchPhoneAt (c :: cs) with
    | some (p, rest) => p :: findPhonesAux fuel rest
    | none => findPhonesAux fuel cs

/-- Match `שלוחה\s*(\d+)` at `cs`. -/
def matchExtensionAt (cs : List Char) : Option (String × List Char) :=
  let kw := "שלוחה".toList
  if kw.isPrefixOf cs then
    let r1 := cs.drop kw.length
    let r2 := r1.dropWhile pyIsSpace
    let digits := r2.takeWhile (fun c => '0' ≤ c && c ≤ '9')
    if digits.isEmpty then none
    else some (String.mk digits, r2.drop digits.length)
  else none

def findExtensionsAux : Nat → List Char → List String
  | 0, _ => []
  | _ + 1, [] => []
  | fuel + 1, c :: cs =>
    match matchExtensionAt (c :: cs) with
    | some (p, rest) => p :: findExtensionsAux fuel rest
    | none => findExtensionsAux fuel cs

/-- `RAGKB._extract_contact_info`. -/
def extract_contact_info (content : String) (_hmo_hebrew : String) : String :=
  let phones := findPhonesAux content.toList.length content.toList
  let contact1 : List String :=
    if phones ≠ [] then ["טלפון: " ++ String.intercalate ", " phones] else []
  let extensions := findExtensionsAux content.toList.length content.toList
  let contact2 := contact1 ++
    (if extensions ≠ [] then ["שלוחה: " ++ String.intercalate ", " extensions] else [])
  if contact2 ≠ [] then "פרטי קשר:\n" ++ String.intercalate "\n" contact2
  else ""

/-- `RAGKB._extract_hmo_chunk`.  Its `except` branch is unreachable in the
    pure model, since every operation in its body is total. -/
def extract_hmo_chunk (content service_name hmo_english hmo_hebrew : String) : Chunk :=
  let hmo_content := find_hmo_specific_content content hmo_hebrew
  let website_info := extract_website_info content hmo_hebrew
  let contact_info := extract_contact_info content hmo_hebrew
  let full1 := hmo_content ++ (if website_info ≠ "" then "\n\n" ++ website_info else "")
  let full_content := full1 ++ (if contact_info ≠ "" then "\n\n" ++ contact_info else "")
  let final_content :=
    if pyStrip full_content = "" then
      "שירותי " ++ service_name ++ " עבור " ++ hmo_hebrew ++
        " - מידע כללי על השירותים הזמינים."
    else full_content
  { content := final_content
    service := service_name
    chunk_type := hmo_english
    chunk_id := service_name ++ "_" ++ hmo_english
    hmo := hmo_english
    hmo_hebrew := hmo_hebrew
    description := hmo_hebrew ++ " services and coverage for " ++ service_name }

/-- `RAGKB._create_three_chunks` applied to the already-read file content
    (reading the file is I/O, outside the pure model; documents are given as
    `(service_name, raw_html)` pairs). -/
def create_three_chunks (service_name rawHtml : String) : List Chunk :=
  let clean_content := clean_html rawHtml
  [extract_hmo_chunk clean_content service_name "maccabi" "מכבי",
   extract_hmo_chunk clean_content service_name "meuhedet" "מאוחדת",
   extract_hmo_chunk clean_content service_name "clalit" "כללית"]

/-- The chunk-accumulation loop of `RAGKB._load_and_process_data`. -/
def build_all_chunks : List (String × String) → List Chunk
  | [] => []
  | d :: rest => create_three_chunks d.1 d.2 ++ build_all_chunks rest

/-! ## Embeddings, the faiss index, and the knowledge-base state -/

/-- The Azure OpenAI embedding client, modelled as a text-to-vector call that
    may fail (`none` models a raised provider exception). -/
def AzureClient : Type := String → Option (List ℚ)

/-- `RAGKB._get_azure_embedding`: provider call whose exception handler falls
    back to the hash embedding. -/
def get_azure_embedding (client : AzureClient) (text : String) : List ℚ :=
  match client text with
  | some e => e
  | none => create_simple_embedding text

/-- `RAGKB._create_simple_embeddings`: one fallback embedding per chunk. -/
def create_simple_embeddings (chunks : List Chunk) : List (List ℚ) :=
  chunks.map (fun c => create_simple_embedding c.content)

/-- The batch loop of `RAGKB._create_embeddings` (batch size 6, batch results
    appended in order; the per-chunk `except` inside the loop is dead code
    because `_get_azure_embedding` already catches every provider error). -/
def embedBatches (client : AzureClient) (chunks : List Chunk) : List (List ℚ) :=
  match chunks with
  | [] => []
  | c :: rest =>
    ((c :: rest).take 6).map (fun ch => get_azure_embedding client ch.content) ++
      embedBatches client ((c :: rest).drop 6)
termination_by chunks.length
decreasing_by simp [List.length_drop]; omega

/-- `RAGKB._create_embeddings`. -/
def create_embeddings (azure : Option AzureClient) (chunks : List Chunk) :
    List (List ℚ) :=
  match azure with
  | none => create_simple_embeddings chunks
  | some client => embedBatches client chunks

/-- The faiss `IndexFlatL2` over the chunk embeddings. -/
structure FaissIndex where
  dim : Nat
  vectors : List (List ℚ)
deriving DecidableEq

/-- `RAGKB._build_faiss_index`: `np.array(embeddings)` needs a uniform row
    length (a ragged list raises, and the `except` leaves the index `None`);
    an empty list leaves the index unbuilt. -/
def build_faiss_index (embeddings : List (List ℚ)) : Option FaissIndex :=
  match embeddings with
  | [] => none
  | e :: rest =>
    if rest.all (fun v => v.length == e.length) then some ⟨e.length, e :: rest⟩
    else none

/-- Squared Euclidean distance (the score of faiss `IndexFlatL2`). -/
def sqDist (a b : List ℚ) : ℚ :=
  (List.zipWith (fun x y => (x - y) * (x - y)) a b).sum

/-- Insertion into a list ordered by ascending (distance, position). -/
def insertByDist (x : ℚ × Nat) : List (ℚ × Nat) → List (ℚ × Nat)
  | [] => [x]
  | y :: ys =>
    if x.1 < y.1 ∨ (x.1 = y.1 ∧ x.2 ≤ y.2) then x :: y :: ys
    else y :: insertByDist x ys

def sortByDist : List (ℚ × Nat) → List (ℚ × Nat)
  | [] => []
  | x :: xs => insertByDist x (sortByDist xs)

/-- `faiss_index.search(query_vector, k)`: `none` models the exception faiss
    raises on a query of the wrong dimensionality; otherwise the positions of
    the `min k ntotal` nearest stored vectors by squared L2 distance,
    ascending (ties by position).  The `-1` padding faiss emits when
    `k > ntotal` is omitted: `search_k` is capped at the corpus size. -/
def FaissIndex.search (idx : FaissIndex) (q : List ℚ) (k : Nat) : Option (List Nat) :=
  if q.length = idx.dim then
    some (((sortByDist (idx.vectors.enum.map (fun p => (sqDist q p.2, p.1)))).map
      Prod.snd).take k)
  else none

/-- The state of a `RAGKB` instance. -/
structure RAGState where
  chunks : List Chunk
  embeddings : List (List ℚ)
  faissIndex : Option FaissIndex
  azureClient : Option AzureClient

/-- `RAGKB.__init__` / `RAGKB._load_and_process_data`: build the chunks, then
    (if any were produced) the embeddings and the index. -/
def load_and_process (azure : Option AzureClient) (docs : List (String × String)) :
    RAGState :=
  let chunks := build_all_chunks docs
  if chunks.isEmpty then
    { chunks := chunks, embeddings := [], faissIndex := none, azureClient := azure }
  else
    let embeddings := create_embeddings azure chunks
    { chunks := chunks, embeddings := embeddings,
      faissIndex := build_faiss_index embeddings, azureClient := azure }

/-- `RAGKB.is_embeddings_ready`. -/
def is_embeddings_ready (st : RAGState) : Bool :=
  st.faissIndex.isSome && st.embeddings.length == st.chunks.length &&
    decide (0 < st.embeddings.length)

/-- `RAGKB.is_loaded`. -/
def is_loaded (st : RAGState) : Bool :=
  decide (0 < st.chunks.length)

/-- `RAGKB.clear_embeddings`. -/
def clear_embeddings (st : RAGState) : RAGState :=
  { st with embeddings := [], faissIndex := none }

/-! ## Query enhancement and search -/

/-- The `medical_terms_mapping` dictionary of
    `_enhance_query_for_multilingual_search`, in insertion order. -/
def medical_terms_mapping : List (String × List String) :=
  [("dental", ["שיניים", "שיני", "דנטלי"]),
   ("teeth", ["שיניים", "שיני"]),
   ("dentist", ["רופא שיניים", "רופאת שיניים"]),
   ("reflexology", ["רפלקסולוגיה"]),
   ("acupuncture", ["דיקור סיני", "אקופונקטורה"]),
   ("shiatsu", ["שיאצו"]),
   ("naturopathy", ["נטורופתיה"]),
   ("homeopathy", ["הומאופתיה"]),
   ("chiropractic", ["כירופרקטיקה"]),
   ("medical", ["רפואי", "רפואית"]),
   ("health", ["בריאות", "בריאותי"]),
   ("service", ["שירות", "שירותים"]),
   ("treatment", ["טיפול", "טיפולים"]),
   ("therapy", ["תרפיה", "טיפול"]),
   ("hmo", ["קופת חולים", "קופה"]),
   ("insurance", ["ביטוח", "ביטוחי"]),
   ("coverage", ["כיסוי", "כיסוי ביטוחי"]),
   ("benefit", ["הטבה", "הטבות"]),
   ("phone", ["טלפון", "טלפונית"]),
   ("contact", ["קשר", "פרטי קשר"]),
   ("website", ["אתר", "אתר אינטרנט"]),
   ("appointment", ["תור", "קביעת תור"]),
   ("consultation", ["ייעוץ", "התייעצות"]),
   ("examination", ["בדיקה", "בדיקות"]),
   ("diagnosis", ["אבחון", "אבחנה"]),
   ("prescription", ["מרשם", "תרופה"])]

/-- `'֐' <= char <= '׿'`. -/
def isHebrewChar (c : Char) : Bool :=
  0x590 ≤ c.toNat && c.toNat ≤ 0x5FF

/-- `RAGKB._enhance_query_for_multilingual_search`. -/
def enhance_query_for_multilingual_search (query language : String) : String :=
  let hasHeb := query.toList.any isHebrewChar
  if language = "en" || !hasHeb then
    let ql := pyLower query
    let added := medical_terms_mapping.foldl
      (fun acc p => if strContains ql p.1 then acc ++ p.2 else acc) []
    if added ≠ [] then query ++ " " ++ String.intercalate " " added else query
  else if hasHeb then
    let ql := pyLower query
    let added := medical_terms_mapping.foldl
      (fun acc p => if p.2.any (fun t => strContains ql t) then acc ++ [p.1] else acc) []
    if added ≠ [] then query ++ " " ++ String.intercalate " " added else query
  else query

/-- The `cross_language_mapping` dictionary of `_get_cross_language_terms`. -/
def cross_language_mapping : List (String × List String) :=
  [("dental", ["שיניים", "שיני"]),
   ("teeth", ["שיניים", "שיני"]),
   ("שיניים", ["dental", "teeth"]),
   ("שיני", ["dental", "teeth"]),
   ("reflexology", ["רפלקסולוגיה"]),
   ("רפלקסולוגיה", ["reflexology"]),
   ("acupuncture", ["דיקור", "דיקור סיני"]),
   ("דיקור", ["acupuncture"]),
   ("דיקור סיני", ["acupuncture"]),
   ("medical", ["רפואי", "רפואית"]),
   ("רפואי", ["medical"]),
   ("רפואית", ["medical"]),
   ("health", ["בריאות", "בריאותי"]),
   ("בריאות", ["health"]),
   ("בריאותי", ["health"]),
   ("hmo", ["קופה", "קופת חולים"]),
   ("קופה", ["hmo"]),
   ("קופת חולים", ["hmo"]),
   ("insurance", ["ביטוח"]),
   ("ביטוח", ["insurance"]),
   ("phone", ["טלפון"]),
   ("טלפון", ["phone"]),
   ("website", ["אתר"]),
   ("אתר", ["website"])]

/-- `RAGKB._get_cross_language_terms`. -/
def get_cross_language_terms (query_terms : List String) : List String :=
  query_terms.foldl
    (fun acc term =>
      match cross_language_mapping.lookup term with
      | some l => acc ++ l
      | none => acc) []

/-- Python truthiness of the optional `hmo_name` argument
    (`None` and `""` are falsy). -/
def hmoTruthy : Option String → Bool
  | some s => !s.isEmpty
  | none => false

def orEmpty : Option String → String
  | some s => s
  | none => ""

/-- The chunk-vs-filter test shared by `_vector_search` and
    `_keyword_search`: case-insensitive substring match of the filter against
    the chunk's `hmo`, `hmo_hebrew` or `chunk_type` field. -/
def hmoMatch (hmo_name : String) (c : Chunk) : Bool :=
  strContains (pyLower c.hmo) (pyLower hmo_name) ||
  strContains (pyLower c.hmo_hebrew) (pyLower hmo_name) ||
  strContains (pyLower c.chunk_type) (pyLower hmo_name)

/-- The `if hmo_name:` guard plus match test applied to one chunk: a chunk is
    kept when no (truthy) filter is given or it matches the filter. -/
def chunkPassesFilter (hmo_name : Option String) (c : Chunk) : Bool :=
  if hmoTruthy hmo_name then hmoMatch (orEmpty hmo_name) c else true

/-- The filter loop of `_vector_search`: walk the faiss result positions,
    keep chunks passing the filter, stop once `top_k` are collected (the
    length check runs after every in-range position, matched or not). -/
def vectorFilterLoop (chunks : List Chunk) (hmo_name : Option String) (top_k : Nat) :
    List Nat → List Chunk → List Chunk
  | [], acc => acc
  | idx :: rest, acc =>
    if idx < chunks.length then
      let c := chunks.getD idx defaultChunk
      let acc2 := if chunkPassesFilter hmo_name c then acc ++ [c] else acc
      if top_k ≤ acc2.length then acc2
      else vectorFilterLoop chunks hmo_name top_k rest acc2
    else vectorFilterLoop chunks hmo_name top_k rest acc

/-- The substring `"לא נמצא מידע"` tested by `search_services`. -/
def no_info_sentinel : String := "לא נמצא מידע"

def search_error_msg (language : String) : String :=
  if language = "he" then "שגיאה בחיפוש המידע." else "Error searching for information."

def vs_header (language : String) : String :=
  if language = "he" then "=== מידע שנאסף ממסד הנתונים ===\n"
  else "=== Information Retrieved from Database ===\n"

def kw_header (language : String) : String :=
  if language = "he" then "=== מידע שנמצא בחיפוש מילות מפתח ===\n"
  else "=== Information Found via Keyword Search ===\n"

def no_relevant_msg (language : String) : String :=
  if language = "he" then "לא נמצא מידע רלוונטי לשאלה שלך במסד הנתונים."
  else "No relevant information found in the database for your question."

/-- The query-embedding step of `_vector_search`. -/
def query_embedding (st : RAGState) (query : String) : List ℚ :=
  match st.azureClient with
  | some client => get_azure_embedding client query
  | none => create_simple_embedding query

/-- One numbered source block of `_vector_search`. -/
def vectorBlock (i : Nat) (c : Chunk) : String :=
  "SOURCE " ++ toString (i + 1) ++ ": [" ++ c.service ++ " - " ++ c.chunk_type ++
    "]\n" ++ c.content

/-- `RAGKB._vector_search`.  When the filter loop keeps no chunks, the source
    executes `return no_results` before `no_results` was ever assigned
    (`UnboundLocalError`), which the surrounding `except` converts to the
    generic error string — so the empty-result branch yields the error
    message, never the "no information" sentinel. -/
def vector_search (st : RAGState) (idx : FaissIndex) (query : String) (top_k : Nat)
    (language : String) (hmo_name : Option String) : String :=
  let q := query_embedding st query
  let search_k := min (top_k * 3) st.chunks.length
  match idx.search q search_k with
  | none => search_error_msg language
  | some indices =>
    let filtered_chunks := vectorFilterLoop st.chunks hmo_name top_k indices []
    let results := filtered_chunks.enum.map (fun p => vectorBlock p.1 p.2)
    if results ≠ [] then vs_header language ++ String.intercalate "\n\n" results
    else search_error_msg language

/-- One source block of `_keyword_search`. -/
def kwBlock (c : Chunk) : String :=
  "SOURCE: [" ++ c.service ++ " - " ++ c.chunk_type ++ "]\n" ++ c.content

/-- The chunk scan of `_keyword_search`: skip chunks failing the filter,
    keep chunks whose lowercased content contains a search term, stop at
    `top_k` matches. -/
def keywordLoop (terms : List String) (hmo_name : Option String) (top_k : Nat) :
    List Chunk → List Chunk → List Chunk
  | [], acc => acc
  | c :: rest, acc =>
    if !chunkPassesFilter hmo_name c then
      keywordLoop terms hmo_name top_k rest acc
    else if terms.any (fun t => strContains (pyLower c.content) t) then
      let acc2 := acc ++ [c]
      if top_k ≤ acc2.length then acc2
      else keywordLoop terms hmo_name top_k rest acc2
    else keywordLoop terms hmo_name top_k rest acc

/-- The search terms used by `_keyword_search`: whitespace tokens of the
    lowercased query plus their cross-language equivalents. -/
def keywordTerms (query : String) : List String :=
  let query_terms := pySplitWs (pyLower query)
  query_terms ++ get_cross_language_terms query_terms

/-- `RAGKB._keyword_search`. -/
def keyword_search (st : RAGState) (query : String) (top_k : Nat)
    (language : String) (hmo_name : Option String) : String :=
  let results := (keywordLoop (keywordTerms query) hmo_name top_k st.chunks []).map kwBlock
  if results ≠ [] then kw_header language ++ String.intercalate "\n\n" results
  else no_relevant_msg language

/-- `RAGKB.search_services`.  A `some` index is truthy and an empty
    embeddings list is falsy in `if self.faiss_index and self.embeddings`.
    The `insurance_tier` argument is accepted and unused, as in the source. -/
def search_services (st : RAGState) (query : String) (hmo_name : Option String)
    (_insurance_tier : Option String) (top_k : Nat) (language : String) : String :=
  match st.faissIndex with
  | some idx =>
    if st.embeddings ≠ [] then
      let enhanced_query := enhance_query_for_multilingual_search query language
      let vector_results := vector_search st idx enhanced_query top_k language hmo_name
      if strContains vector_results no_info_sentinel || vector_results.length < 100 then
        let keyword_results := keyword_search st enhanced_query top_k language hmo_name
        if keyword_results ≠ "" && !strContains keyword_results no_info_sentinel then
          keyword_results
        else vector_results
      else vector_results
    else "Vector search system not ready"
  | none => "Vector search system not ready"

/-! ## Lemmas about the fallback embedding -/

lemma hexVal_le (c : Char) : hexVal c ≤ 15 := by
  unfold hexVal; split_ifs <;> omega

lemma hexPair_div_bounds {k : ℕ} (hk : k ≤ 255) :
    0 ≤ (k : ℚ) / 255 ∧ (k : ℚ) / 255 ≤ 1 := by
  constructor
  · positivity
  · rw [div_le_one (by norm_num)]
    exact_mod_cast hk

lemma hexPairLoop_mem (l : List Char) (n : Nat) :
    ∀ x ∈ hexPairLoop l n, ∃ k : ℕ, k ≤ 255 ∧ x = (k : ℚ) / 255 := by
  induction l, n using hexPairLoop.induct with
  | case1 n => simp [hexPairLoop]
  | case2 c1 c2 rest n h => simp [hexPairLoop, h]
  | case3 c1 c2 rest n h ih =>
    intro x hx
    rw [hexPairLoop, if_neg h] at hx
    rcases List.mem_cons.mp hx with rfl | hx'
    · exact ⟨16 * hexVal c1 + hexVal c2, by have := hexVal_le c1; have := hexVal_le c2; omega, rfl⟩
    · exact ih x hx'
  | case4 c n h => simp [hexPairLoop, h]
  | case5 c n h =>
    intro x hx
    rw [hexPairLoop, if_neg h] at hx
    rcases List.mem_cons.mp hx with rfl | hx'
    · exact ⟨hexVal c, (hexVal_le c).trans (by norm_num), rfl⟩
    · simp at hx'

lemma hexPairLoop_length (l : List Char) (n : Nat) :
    (hexPairLoop l n).length = min ((l.length + 1) / 2) (128 - n) := by
  induction l, n using hexPairLoop.induct with
  | case1 n => simp [hexPairLoop]
  | case2 c1 c2 rest n h => simp [hexPairLoop, h]
  | case3 c1 c2 rest n h ih => rw [hexPairLoop, if_neg h]; simp [ih]; omega
  | case4 c n h => simp [hexPairLoop, h]
  | case5 c n h => rw [hexPairLoop, if_neg h]; simp; omega

lemma create_simple_embedding_length (t : String) :
    (create_simple_embedding t).length = 128 := by
  unfold create_simple_embedding
  simp [List.length_take]
  omega

lemma create_simple_embedding_mem (t : String) :
    ∀ x ∈ create_simple_embedding t, 0 ≤ x ∧ x ≤ 1 := by
  intro x hx
  unfold create_simple_embedding at hx
  rcases List.mem_append.mp (List.mem_of_mem_take hx) with h | h
  · obtain ⟨k, hk, rfl⟩ := hexPairLoop_mem _ _ x h
    exact hexPair_div_bounds hk
  · rw [List.eq_of_mem_replicate h]
    norm_num

lemma length_flatMap_byteHex (l : List Nat) :
    (l.flatMap byteHex).length = 2 * l.length := by
  induction l with
  | nil => simp
  | cons b t ih => simp [List.flatMap_cons, byteHex, ih]; omega

lemma md5Bytes_length (s : String) : (md5Bytes s).length = 16 := by
  unfold md5Bytes wordLEBytes
  simp

lemma md5HexDigest_length (s : String) : (md5HexDigest s).length = 32 := by
  unfold md5HexDigest
  rw [length_flatMap_byteHex, md5Bytes_length]

/-- Claim C7: the fallback hash embedding is a pure deterministic function of
    the input text — calling it twice on the same text yields identical
    results, the returned vector has length exactly 128, and every component
    lies in the closed interval [0, 1]. -/
theorem c7_simple_embedding_deterministic_len128_unit_interval
    (t : String) (i : Nat) (hi : i < 128) :
    create_simple_embedding t = create_simple_embedding t ∧
    (create_simple_embedding t).length = 128 ∧
    0 ≤ (create_simple_embedding t).getD i 0 ∧
    (create_simple_embedding t).getD i 0 ≤ 1 := by
  have hlen := create_simple_embedding_length t
  have hb : 0 ≤ (create_simple_embedding t).getD i 0 ∧
      (create_simple_embedding t).getD i 0 ≤ 1 := by
    rw [List.getD_eq_getElem _ _ (by omega)]
    exact create_simple_embedding_mem t _ (List.getElem_mem _)
  exact ⟨rfl, hlen, hb.1, hb.2⟩

theorem c7_witness :
    0 < 128 ∧
    (create_simple_embedding "test" = create_simple_embedding "test" ∧
     (create_simple_embedding "test").length = 128 ∧
     0 ≤ (create_simple_embedding "test").getD 0 0 ∧
     (create_simple_embedding "test").getD 0 0 ≤ 1) :=
  ⟨by decide, c7_simple_embedding_deterministic_len128_unit_interval "test" 0 (by decide)⟩

/-- Claim C10: components 16 through 127 of the fallback hash embedding are
    exactly 0 for every input (the md5 hexdigest supplies only 16 byte-pair
    values, the rest is zero padding), so the fallback embeddings of any two
    texts can differ only in their first 16 coordinates. -/
theorem c10_fallback_zero_padding (t t' : String) (i : Nat)
    (h16 : 16 ≤ i) (h128 : i < 128) :
    (create_simple_embedding t).getD i 1 = 0 ∧
    (create_simple_embedding t).getD i 1 = (create_simple_embedding t').getD i 1 := by
  have key : ∀ s : String, (create_simple_embedding s).getD i 1 = 0 := by
    intro s
    unfold create_simple_embedding
    have hlen : (hexPairLoop (md5HexDigest s) 0).length = 16 := by
      rw [hexPairLoop_length, md5HexDigest_length]; decide
    rw [List.getD_eq_getElem?_getD, List.getElem?_take, if_pos h128,
      List.getElem?_append_right (by omega), hlen, List.getElem?_replicate,
      if_pos (by omega)]
    rfl
  exact ⟨key t, (key t).trans (key t').symm⟩

theorem c10_witness :
    (16 ≤ 20 ∧ 20 < 128) ∧
    ((create_simple_embedding "a").getD 20 1 = 0 ∧
     (create_simple_embedding "a").getD 20 1 = (create_simple_embedding "b").getD 20 1) :=
  ⟨by decide, c10_fallback_zero_padding "a" "b" 20 (by decide) (by decide)⟩

/-! ## Lemmas about the chunk builder -/

lemma build_all_chunks_length (docs : List (String × String)) :
    (build_all_chunks docs).length = 3 * docs.length := by
  induction docs with
  | nil => rfl
  | cons d rest ih =>
    simp [build_all_chunks, create_three_chunks, ih]
    omega

/-- Claim C3: the per-document chunk builder returns exactly 3 chunks — one
    per tracked entity, in the order maccabi, meuhedet, clalit — and never
    raises (every operation in its pure body is total); consequently a corpus
    of N documents yields exactly 3 × N chunks. -/
theorem c3_three_chunks_per_document (service_name rawHtml : String)
    (docs : List (String × String)) :
    (create_three_chunks service_name rawHtml).length = 3 ∧
    (create_three_chunks service_name rawHtml).map Chunk.chunk_type =
      ["maccabi", "meuhedet", "clalit"] ∧
    (build_all_chunks docs).length = 3 * docs.length :=
  ⟨rfl, rfl, build_all_chunks_length docs⟩

lemma toList_append (a b : String) : (a ++ b).toList = a.toList ++ b.toList := by
  simp [String.toList, String.data_append]

lemma mem_toList_append_left {c : Char} {a : String} (b : String)
    (h : c ∈ a.toList) : c ∈ (a ++ b).toList := by
  rw [toList_append]
  exact List.mem_append_left _ h

lemma mem_all_space_of_strip_nil {l : List Char} (h : pyStripL l = []) :
    ∀ c ∈ l, pyIsSpace c = true := by
  unfold pyStripL at h
  rw [List.reverse_eq_nil_iff, List.dropWhile_eq_nil_iff] at h
  intro c hc
  have hsplit : c ∈ l.takeWhile pyIsSpace ++ l.dropWhile pyIsSpace := by
    rw [List.takeWhile_append_dropWhile]
    exact hc
  rcases List.mem_append.mp hsplit with h1 | h1
  · exact List.mem_takeWhile_imp h1
  · exact h c (List.mem_reverse.mpr h1)

lemma pyStripL_ne_nil_of_mem {l : List Char} {c : Char} (hm : c ∈ l)
    (hc : pyIsSpace c = false) : pyStripL l ≠ [] := by
  intro h
  have := mem_all_space_of_strip_nil h c hm
  rw [hc] at this
  exact Bool.false_ne_true this

lemma fallback_strip_pos (sn hh : String) :
    0 < (pyStrip ("שירותי " ++ sn ++ " עבור " ++ hh ++
        " - מידע כללי על השירותים הזמינים.")).length := by
  have hm : 'ש' ∈ ("שירותי " ++ sn ++ " עבור " ++ hh ++
      " - מידע כללי על השירותים הזמינים.").toList :=
    mem_toList_append_left _ (mem_toList_append_left _ (mem_toList_append_left _
      (mem_toList_append_left _ (by decide))))
  have hne : pyStripL ("שירותי " ++ sn ++ " עבור " ++ hh ++
      " - מידע כללי על השירותים הזמינים.").toList ≠ [] :=
    pyStripL_ne_nil_of_mem hm (by decide)
  exact List.length_pos.mpr hne

lemma strip_pos_of_ite (full sn hh : String) :
    0 < (pyStrip (if pyStrip full = "" then
        "שירותי " ++ sn ++ " עבור " ++ hh ++ " - מידע כללי על השירותים הזמינים."
      else full)).length := by
  split_ifs with h
  · exact fallback_strip_pos sn hh
  · have hne : pyStripL full.toList ≠ [] := by
      intro hnil
      apply h
      show String.mk (pyStripL full.toList) = ""
      rw [hnil]
    exact List.length_pos.mpr hne

lemma extract_hmo_chunk_content_strip_pos (content sn he hh : String) :
    0 < (pyStrip (extract_hmo_chunk content sn he hh).content).length :=
  strip_pos_of_ite _ sn hh

/-- Claim C6: every chunk produced by the chunk builder has non-empty content
    after stripping whitespace, for every input document (a fallback sentence
    naming the service and entity is substituted when the assembled content is
    empty or whitespace-only). -/
theorem c6_chunk_content_nonempty (docs : List (String × String)) (c : Chunk)
    (hc : c ∈ build_all_chunks docs) :
    0 < (pyStrip c.content).length := by
  induction docs with
  | nil => simp [build_all_chunks] at hc
  | cons d rest ih =>
    rw [build_all_chunks] at hc
    rcases List.mem_append.mp hc with h | h
    · have h3 : c = extract_hmo_chunk (clean_html d.2) d.1 "maccabi" "מכבי" ∨
          c = extract_hmo_chunk (clean_html d.2) d.1 "meuhedet" "מאוחדת" ∨
          c = extract_hmo_chunk (clean_html d.2) d.1 "clalit" "כללית" := by
        simpa [create_three_chunks] using h
      rcases h3 with rfl | rfl | rfl <;> exact extract_hmo_chunk_content_strip_pos ..
    · exact ih h

theorem c6_witness :
    (build_all_chunks [("svc", "x")]).getD 0 defaultChunk ∈
      build_all_chunks [("svc", "x")] ∧
    0 < (pyStrip ((build_all_chunks [("svc", "x")]).getD 0 defaultChunk).content).length :=
  ⟨by decide, c6_chunk_content_nonempty [("svc", "x")] _ (by decide)⟩

/-! ## Embedding parity and the clear-embeddings frame -/

/-- The embedding the build computes for one chunk text: the provider result
    when the provider call succeeds, the hash fallback otherwise (or when no
    provider is configured). -/
def embedOne (azure : Option AzureClient) (text : String) : List ℚ :=
  match azure with
  | none => create_simple_embedding text
  | some client => get_azure_embedding client text

lemma embedBatches_eq_map (client : AzureClient) (chunks : List Chunk) :
    embedBatches client chunks =
      chunks.map (fun c => get_azure_embedding client c.content) := by
  induction chunks using embedBatches.induct client with
  | case1 => simp [embedBatches]
  | case2 c rest ih =>
    rw [embedBatches, ih, ← List.map_append, List.take_append_drop]

lemma create_embeddings_eq_map (azure : Option AzureClient) (chunks : List Chunk) :
    create_embeddings azure chunks = chunks.map (fun c => embedOne azure c.content) := by
  cases azure with
  | none => rfl
  | some client => exact embedBatches_eq_map client chunks

/-- Claim C2: after the embedding-construction step — including runs in which
    the provider fails for some or all chunks, so hash fallbacks are
    substituted — the embeddings list has exactly one entry per chunk,
    positionally aligned (entry i is computed from chunk i's content, with no
    skipped or duplicated slot); and `is_embeddings_ready` returns true iff
    the index is built, the lengths agree, and the count is non-zero. -/
theorem c2_embedding_parity (azure : Option AzureClient) (chunks : List Chunk)
    (i : Nat) (hi : i < chunks.length) (st : RAGState) :
    (create_embeddings azure chunks).length = chunks.length ∧
    (create_embeddings azure chunks).getD i [] =
      embedOne azure (chunks.getD i defaultChunk).content ∧
    (is_embeddings_ready st = true ↔
      st.faissIndex ≠ none ∧ st.embeddings.length = st.chunks.length ∧
        0 < st.embeddings.length) := by
  refine ⟨?_, ?_, ?_⟩
  · rw [create_embeddings_eq_map]
    exact List.length_map ..
  · rw [create_embeddings_eq_map,
      List.getD_eq_getElem _ _ (by simpa using hi), List.getD_eq_getElem _ _ hi]
    simp
  · simp [is_embeddings_ready, Option.isSome_iff_ne_none]
    exact and_assoc

theorem c2_witness :
    0 < [defaultChunk].length ∧
    ((create_embeddings none [defaultChunk]).length = [defaultChunk].length ∧
     (create_embeddings none [defaultChunk]).getD 0 [] =
       embedOne none ([defaultChunk].getD 0 defaultChunk).content ∧
     (is_embeddings_ready ⟨[], [], none, none⟩ = true ↔
       (⟨[], [], none, none⟩ : RAGState).faissIndex ≠ none ∧
       (⟨[], [], none, none⟩ : RAGState).embeddings.length =
         (⟨[], [], none, none⟩ : RAGState).chunks.length ∧
       0 < (⟨[], [], none, none⟩ : RAGState).embeddings.length)) :=
  ⟨by decide, c2_embedding_parity none [defaultChunk] 0 (by decide) ⟨[], [], none, none⟩⟩

/-- Claim C9: `clear_embeddings` empties the embeddings list and discards the
    index while leaving the chunk list entirely unchanged; afterwards
    `is_embeddings_ready` is false, `is_loaded` still reflects the
    pre-existing chunks, and `search_services` still returns a string (the
    "not ready" message) without raising. -/
theorem c9_clear_embeddings_frame (st : RAGState) (query : String)
    (hmo_name insurance_tier : Option String) (top_k : Nat) (language : String) :
    (clear_embeddings st).chunks = st.chunks ∧
    (clear_embeddings st).embeddings = [] ∧
    (clear_embeddings st).faissIndex = none ∧
    is_embeddings_ready (clear_embeddings st) = false ∧
    is_loaded (clear_embeddings st) = is_loaded st ∧
    search_services (clear_embeddings st) query hmo_name insurance_tier top_k
      language = "Vector search system not ready" :=
  ⟨rfl, rfl, rfl, rfl, rfl, rfl⟩

/-! ## Entity-filter soundness (claim C1) -/

/-- The tracked entity names a filter may be drawn from: the three ids and
    their Hebrew labels. -/
def trackedEntityNames : List String :=
  ["maccabi", "meuhedet", "clalit", "מכבי", "מאוחדת", "כללית"]

/-- The entity id a tracked filter name denotes. -/
def trackedIdOf (x : String) : String :=
  if x = "מכבי" then "maccabi"
  else if x = "מאוחדת" then "meuhedet"
  else if x = "כללית" then "clalit"
  else x

/-- The (hmo, hmo_hebrew, chunk_type) field triples the builder produces. -/
def entityTriples : List (String × String × String) :=
  [("maccabi", "מכבי", "maccabi"), ("meuhedet", "מאוחדת", "meuhedet"),
   ("clalit", "כללית", "clalit")]

lemma extract_hmo_chunk_triple (content sn he hh : String) :
    ((extract_hmo_chunk content sn he hh).hmo,
     (extract_hmo_chunk content sn he hh).hmo_hebrew,
     (extract_hmo_chunk content sn he hh).chunk_type) = (he, hh, he) := rfl

lemma build_all_chunks_entity (docs : List (String × String)) (c : Chunk)
    (hc : c ∈ build_all_chunks docs) :
    (c.hmo, c.hmo_hebrew, c.chunk_type) ∈ entityTriples := by
  induction docs with
  | nil => simp [build_all_chunks] at hc
  | cons d rest ih =>
    rw [build_all_chunks] at hc
    rcases List.mem_append.mp hc with h | h
    · have h3 : c = extract_hmo_chunk (clean_html d.2) d.1 "maccabi" "מכבי" ∨
          c = extract_hmo_chunk (clean_html d.2) d.1 "meuhedet" "מאוחדת" ∨
          c = extract_hmo_chunk (clean_html d.2) d.1 "clalit" "כללית" := by
        simpa [create_three_chunks] using h
      rcases h3 with rfl | rfl | rfl <;> rw [extract_hmo_chunk_triple] <;> decide
    · exact ih h

lemma vectorFilterLoop_sound_aux (hmo_name : Option String) (top_k : Nat)
    (chunks : List Chunk) :
    ∀ (indices : List Nat) (acc : List Chunk) (c : Chunk),
      c ∈ vectorFilterLoop chunks hmo_name top_k indices acc →
      c ∈ acc ∨ (c ∈ chunks ∧ chunkPassesFilter hmo_name c = true) := by
  intro indices
  induction indices with
  | nil =>
    intro acc c hc
    rw [vectorFilterLoop] at hc
    exact Or.inl hc
  | cons idx rest ih =>
    intro acc c hc
    simp only [vectorFilterLoop] at hc
    by_cases hidx : idx < chunks.length
    · rw [if_pos hidx] at hc
      by_cases hkeep : chunkPassesFilter hmo_name (chunks.getD idx defaultChunk) = true
      · rw [if_pos hkeep] at hc
        have hsub : ∀ x ∈ acc ++ [chunks.getD idx defaultChunk],
            x ∈ acc ∨ (x ∈ chunks ∧ chunkPassesFilter hmo_name x = true) := by
          intro x hx
          rcases List.mem_append.mp hx with h1 | h1
          · exact Or.inl h1
          · rw [List.mem_singleton] at h1
            subst h1
            refine Or.inr ⟨?_, hkeep⟩
            rw [List.getD_eq_getElem _ _ hidx]
            exact List.getElem_mem _
        by_cases hbrk : top_k ≤ (acc ++ [chunks.getD idx defaultChunk]).length
        · rw [if_pos hbrk] at hc
          exact hsub c hc
        · rw [if_neg hbrk] at hc
          rcases ih _ c hc with h | h
          · exact hsub c h
          · exact Or.inr h
      · rw [if_neg hkeep] at hc
        by_cases hbrk : top_k ≤ acc.length
        · rw [if_pos hbrk] at hc
          exact Or.inl hc
        · rw [if_neg hbrk] at hc
          exact ih _ c hc
    · rw [if_neg hidx] at hc
      exact ih _ c hc

lemma keywordLoop_sound_aux (terms : List String) (hmo_name : Option String)
    (top_k : Nat) :
    ∀ (l : List Chunk) (acc : List Chunk) (c : Chunk),
      c ∈ keywordLoop terms hmo_name top_k l acc →
      c ∈ acc ∨ (c ∈ l ∧ chunkPassesFilter hmo_name c = true) := by
  intro l
  induction l with
  | nil =>
    intro acc c hc
    rw [keywordLoop] at hc
    exact Or.inl hc
  | cons ch rest ih =>
    intro acc c hc
    simp only [keywordLoop] at hc
    by_cases hskip : (!chunkPassesFilter hmo_name ch) = true
    · rw [if_pos hskip] at hc
      rcases ih acc c hc with h | h
      · exact Or.inl h
      · exact Or.inr ⟨List.mem_cons_of_mem _ h.1, h.2⟩
    · rw [if_neg hskip] at hc
      have hpass : chunkPassesFilter hmo_name ch = true := by
        simpa using hskip
      have hsub : ∀ x ∈ acc ++ [ch],
          x ∈ acc ∨ (x ∈ ch :: rest ∧ chunkPassesFilter hmo_name x = true) := by
        intro x hx
        rcases List.mem_append.mp hx with h1 | h1
        · exact Or.inl h1
        · rw [List.mem_singleton] at h1
          subst h1
          exact Or.inr ⟨List.mem_cons_self .., hpass⟩
      by_cases hterm : (terms.any fun t => strContains (pyLower ch.content) t) = true
      · rw [if_pos hterm] at hc
        by_cases hbrk : top_k ≤ (acc ++ [ch]).length
        · rw [if_pos hbrk] at hc
          exact hsub c hc
        · rw [if_neg hbrk] at hc
          rcases ih _ c hc with h | h
          · exact hsub c h
          · exact Or.inr ⟨List.mem_cons_of_mem _ h.1, h.2⟩
      · rw [if_neg hterm] at hc
        rcases ih acc c hc with h | h
        · exact Or.inl h
        · exact Or.inr ⟨List.mem_cons_of_mem _ h.1, h.2⟩

lemma tracked_truthy : ∀ x ∈ trackedEntityNames, hmoTruthy (some x) = true := by
  decide

lemma tracked_match_unique :
    ∀ x ∈ trackedEntityNames, ∀ t ∈ entityTriples,
      hmoMatch x ⟨"", "", t.2.2, "", t.1, t.2.1, ""⟩ = true → t.1 = trackedIdOf x := by
  decide

/-- Claim C1: with an entity filter X drawn from the tracked set, every chunk
    kept by the vector-search filter loop or by the keyword-search scan — and
    hence every SOURCE block of the string `search_services` returns, which
    is built one-to-one from those chunk lists — matches X case-insensitively
    on its `hmo`, `hmo_hebrew` or `chunk_type` field, and is a chunk of X's
    entity: no chunk of a different entity ever appears, on either path. -/
theorem c1_entity_filter_soundness (docs : List (String × String)) (X : String)
    (hX : X ∈ trackedEntityNames) (top_k : Nat) (indices : List Nat)
    (terms : List String) (c : Chunk)
    (hc : c ∈ vectorFilterLoop (build_all_chunks docs) (some X) top_k indices [] ∨
          c ∈ keywordLoop terms (some X) top_k (build_all_chunks docs) []) :
    hmoMatch X c = true ∧ c.hmo = trackedIdOf X := by
  have htr := tracked_truthy X hX
  have hmem : c ∈ build_all_chunks docs ∧ chunkPassesFilter (some X) c = true := by
    rcases hc with h | h
    · rcases vectorFilterLoop_sound_aux (some X) top_k _ indices [] c h with h1 | h1
      · simp at h1
      · exact h1
    · rcases keywordLoop_sound_aux terms (some X) top_k _ [] c h with h1 | h1
      · simp at h1
      · exact h1
  have hmatch : hmoMatch X c = true := by
    have h2 := hmem.2
    unfold chunkPassesFilter at h2
    rw [if_pos htr] at h2
    exact h2
  exact ⟨hmatch,
    tracked_match_unique X hX (c.hmo, c.hmo_hebrew, c.chunk_type)
      (build_all_chunks_entity docs c hmem.1) hmatch⟩

theorem c1_witness :
    ("maccabi" ∈ trackedEntityNames ∧
     ((build_all_chunks [("svc", "x")]).getD 0 defaultChunk ∈
        keywordLoop ["מידע"] (some "maccabi") 3 (build_all_chunks [("svc", "x")]) [])) ∧
    (hmoMatch "maccabi" ((build_all_chunks [("svc", "x")]).getD 0 defaultChunk) = true ∧
     ((build_all_chunks [("svc", "x")]).getD 0 defaultChunk).hmo = trackedIdOf "maccabi") :=
  ⟨⟨by decide, by decide⟩,
   c1_entity_filter_soundness [("svc", "x")] "maccabi" (by decide) 3 [] ["מידע"] _
     (Or.inr (by decide))⟩

/-! ## top_k bounds (claim C8) -/

lemma vectorFilterLoop_length_le_topk (chunks : List Chunk)
    (hmo_name : Option String) (top_k : Nat) :
    ∀ (indices : List Nat) (acc : List Chunk), acc.length < top_k →
      (vectorFilterLoop chunks hmo_name top_k indices acc).length ≤ top_k := by
  intro indices
  induction indices with
  | nil =>
    intro acc h
    rw [vectorFilterLoop]
    omega
  | cons idx rest ih =>
    intro acc hlt
    simp only [vectorFilterLoop]
    by_cases hidx : idx < chunks.length
    · rw [if_pos hidx]
      by_cases hkeep : chunkPassesFilter hmo_name (chunks.getD idx defaultChunk) = true
      · rw [if_pos hkeep]
        by_cases hbrk : top_k ≤ (acc ++ [chunks.getD idx defaultChunk]).length
        · rw [if_pos hbrk]
          simp only [List.length_append, List.length_cons, List.length_nil]
          omega
        · rw [if_neg hbrk]
          apply ih
          simp only [List.length_append, List.length_cons, List.length_nil] at hbrk ⊢
          omega
      · rw [if_neg hkeep]
        by_cases hbrk : top_k ≤ acc.length
        · rw [if_pos hbrk]
          omega
        · rw [if_neg hbrk]
          exact ih acc hlt
    · rw [if_neg hidx]
      exact ih acc hlt

lemma vectorFilterLoop_length_le_indices (chunks : List Chunk)
    (hmo_name : Option String) (top_k : Nat) :
    ∀ (indices : List Nat) (acc : List Chunk),
      (vectorFilterLoop chunks hmo_name top_k indices acc).length ≤
        acc.length + indices.length := by
  intro indices
  induction indices with
  | nil =>
    intro acc
    rw [vectorFilterLoop]
    omega
  | cons idx rest ih =>
    intro acc
    simp only [vectorFilterLoop]
    by_cases hidx : idx < chunks.length
    · rw [if_pos hidx]
      by_cases hkeep : chunkPassesFilter hmo_name (chunks.getD idx defaultChunk) = true
      · rw [if_pos hkeep]
        by_cases hbrk : top_k ≤ (acc ++ [chunks.getD idx defaultChunk]).length
        · rw [if_pos hbrk]
          simp only [List.length_append, List.length_cons, List.length_nil, List.length_cons]
          omega
        · rw [if_neg hbrk]
          have := ih (acc ++ [chunks.getD idx defaultChunk])
          simp only [List.length_append, List.length_cons, List.length_nil, List.length_cons] at this ⊢
          omega
      · rw [if_neg hkeep]
        by_cases hbrk : top_k ≤ acc.length
        · rw [if_pos hbrk]
          simp only [List.length_cons]
          omega
        · rw [if_neg hbrk]
          have := ih acc
          simp only [List.length_cons]
          omega
    · rw [if_neg hidx]
      have := ih acc
      simp only [List.length_cons]
      omega

lemma keywordLoop_length_le_topk (terms : List String) (hmo_name : Option String)
    (top_k : Nat) :
    ∀ (l : List Chunk) (acc : List Chunk), acc.length < top_k →
      (keywordLoop terms hmo_name top_k l acc).length ≤ top_k := by
  intro l
  induction l with
  | nil =>
    intro acc h
    rw [keywordLoop]
    omega
  | cons ch rest ih =>
    intro acc hlt
    simp only [keywordLoop]
    by_cases hskip : (!chunkPassesFilter hmo_name ch) = true
    · rw [if_pos hskip]
      exact ih acc hlt
    · rw [if_neg hskip]
      by_cases hterm : (terms.any fun t => strContains (pyLower ch.content) t) = true
      · rw [if_pos hterm]
        by_cases hbrk : top_k ≤ (acc ++ [ch]).length
        · rw [if_pos hbrk]
          simp only [List.length_append, List.length_cons, List.length_nil]
          omega
        · rw [if_neg hbrk]
          apply ih
          simp only [List.length_append, List.length_cons, List.length_nil] at hbrk ⊢
          omega
      · rw [if_neg hterm]
        exact ih acc hlt

lemma keywordLoop_length_le_chunks (terms : List String) (hmo_name : Option String)
    (top_k : Nat) :
    ∀ (l : List Chunk) (acc : List Chunk),
      (keywordLoop terms hmo_name top_k l acc).length ≤ acc.length + l.length := by
  intro l
  induction l with
  | nil =>
    intro acc
    rw [keywordLoop]
    omega
  | cons ch rest ih =>
    intro acc
    simp only [keywordLoop]
    by_cases hskip : (!chunkPassesFilter hmo_name ch) = true
    · rw [if_pos hskip]
      have := ih acc
      simp only [List.length_cons]
      omega
    · rw [if_neg hskip]
      by_cases hterm : (terms.any fun t => strContains (pyLower ch.content) t) = true
      · rw [if_pos hterm]
        by_cases hbrk : top_k ≤ (acc ++ [ch]).length
        · rw [if_pos hbrk]
          simp only [List.length_append, List.length_cons, List.length_nil, List.length_cons]
          omega
        · rw [if_neg hbrk]
          have := ih (acc ++ [ch])
          simp only [List.length_append, List.length_cons, List.length_nil, List.length_cons] at this ⊢
          omega
      · rw [if_neg hterm]
        have := ih acc
        simp only [List.length_cons]
        omega

lemma faiss_search_length (idx : FaissIndex) (q : List ℚ) (k : Nat)
    (indices : List Nat) (h : idx.search q k = some indices) :
    indices.length ≤ k := by
  unfold FaissIndex.search at h
  split at h
  · rw [Option.some_inj] at h
    rw [← h]
    simp [List.length_take]
  · exact absurd h (by simp)

/-- Claim C8: for every query and entity filter and `top_k ≥ 1`,
    `search_services` returns a string with at most min(top_k, corpus size)
    SOURCE blocks and never raises: on the vector path the faiss query
    over-fetches top_k × 3 capped at the corpus size and the filter loop
    stops collecting at top_k kept chunks, and on the keyword path the scan
    stops at top_k matches — so both chunk lists the SOURCE blocks are built
    from (one block per list entry) have length at most
    min(top_k, number of chunks). -/
theorem c8_topk_bound (st : RAGState) (idx : FaissIndex) (query : String)
    (hmo_name : Option String) (top_k : Nat) (indices : List Nat)
    (terms : List String) (hk : 1 ≤ top_k)
    (hs : idx.search (query_embedding st query)
        (min (top_k * 3) st.chunks.length) = some indices) :
    (vectorFilterLoop st.chunks hmo_name top_k indices []).length ≤
      min top_k st.chunks.length ∧
    (keywordLoop terms hmo_name top_k st.chunks []).length ≤
      min top_k st.chunks.length := by
  have hidx := faiss_search_length idx _ _ indices hs
  constructor
  · apply le_min
    · exact vectorFilterLoop_length_le_topk _ _ _ indices [] (by simpa using hk)
    · have h1 := vectorFilterLoop_length_le_indices st.chunks hmo_name top_k indices []
      simp only [List.length_nil, Nat.zero_add] at h1
      omega
  · apply le_min
    · exact keywordLoop_length_le_topk _ _ _ st.chunks [] (by simpa using hk)
    · have h1 := keywordLoop_length_le_chunks terms hmo_name top_k st.chunks []
      simp only [List.length_nil, Nat.zero_add] at h1
      exact h1

set_option maxRecDepth 100000 in
theorem c8_witness :
    (1 ≤ 1 ∧
     FaissIndex.search ⟨128, []⟩
       (query_embedding ⟨[], [], none, none⟩ "q")
       (min (1 * 3) (⟨[], [], none, none⟩ : RAGState).chunks.length) = some []) ∧
    ((vectorFilterLoop (⟨[], [], none, none⟩ : RAGState).chunks none 1 [] []).length ≤
       min 1 (⟨[], [], none, none⟩ : RAGState).chunks.length ∧
     (keywordLoop [] none 1 (⟨[], [], none, none⟩ : RAGState).chunks []).length ≤
       min 1 (⟨[], [], none, none⟩ : RAGState).chunks.length) :=
  ⟨⟨by decide, by decide⟩,
   c8_topk_bound ⟨[], [], none, none⟩ ⟨128, []⟩ "q" none 1 [] [] (by decide) (by decide)⟩

/-! ## Search error handling (claim C4) -/

/-- Claim C4 counterexample: the "system not ready" message is not localized.
    With the index and embeddings unavailable, the `language = "he"` call
    returns the fixed English "Vector search system not ready" string — the
    very same string the `language = "en"` call returns — rather than a
    Hebrew-localized message. -/
theorem c4_counterexample :
    search_services ⟨[], [], none, none⟩ "q" none none 3 "he" =
      "Vector search system not ready" ∧
    search_services ⟨[], [], none, none⟩ "q" none none 3 "en" =
      "Vector search system not ready" ∧
    search_services ⟨[], [], none, none⟩ "q" none none 3 "he" =
      search_services ⟨[], [], none, none⟩ "q" none none 3 "en" :=
  ⟨rfl, rfl, rfl⟩

/-- Claim C4 (amended): `search_services` always returns a string and never
    raises — every branch of the (total) model produces a string.  When the
    similarity index or the embeddings list is unavailable it returns the
    fixed English "Vector search system not ready" message — the same string
    for every language tag, not a localized one (see `c4_counterexample`) —
    instead of raising; an exception
    during index access inside `_vector_search` (modelled by
    `FaissIndex.search` returning `none`, e.g. a query embedding whose
    dimensionality does not match the index) is caught and converted into the
    language-localized generic error string; and the empty-result branch
    (whose `return no_results` raises `UnboundLocalError` in the source) is
    likewise converted into the localized generic error string.  Query
    embedding failures never escape either: `_get_azure_embedding` converts
    them to the hash fallback before the index is consulted. -/
theorem c4_search_never_raises (st : RAGState) (query : String)
    (hmo_name insurance_tier : Option String) (top_k : Nat) (language : String) :
    (st.faissIndex = none ∨ st.embeddings = [] →
      search_services st query hmo_name insurance_tier top_k language =
        "Vector search system not ready") ∧
    (∀ idx, idx.search
        (query_embedding st (enhance_query_for_multilingual_search query language))
        (min (top_k * 3) st.chunks.length) = none →
      vector_search st idx (enhance_query_for_multilingual_search query language)
        top_k language hmo_name = search_error_msg language) ∧
    (∀ idx indices, idx.search
        (query_embedding st (enhance_query_for_multilingual_search query language))
        (min (top_k * 3) st.chunks.length) = some indices →
      vectorFilterLoop st.chunks hmo_name top_k indices [] = [] →
      vector_search st idx (enhance_query_for_multilingual_search query language)
        top_k language hmo_name = search_error_msg language) := by
  refine ⟨?_, ?_, ?_⟩
  · intro h
    unfold search_services
    rcases h with h | h
    · rw [h]
    · cases hfi : st.faissIndex with
      | none => rfl
      | some idx => simp [h]
  · intro idx hsearch
    simp only [vector_search]
    rw [hsearch]
  · intro idx indices hsearch hempty
    simp only [vector_search]
    rw [hsearch]
    simp [hempty]

theorem c4_witness :
    search_services ⟨[], [], none, none⟩ "q" none none 3 "he" =
      "Vector search system not ready" :=
  (c4_search_never_raises ⟨[], [], none, none⟩ "q" none none 3 "he").1 (Or.inl rfl)

/-! ## Keyword fallback semantics (claim C5) -/

lemma kw_header_length_pos (language : String) : 0 < (kw_header language).length := by
  unfold kw_header
  split_ifs <;> decide

/-- Claim C5 (amended): the keyword fallback runs exactly when the
    vector-search result contains the "no information found" sentinel or is
    shorter than 100 characters.  When it runs and some chunk passes the
    filter-and-token scan, the keyword result is the keyword-search header
    followed by one block per matched chunk, and `search_services` returns it
    provided it does not itself contain the sentinel substring.  When the
    fallback finds nothing, the keyword result is the localized "no relevant
    information" sentinel, but `search_services` returns that sentinel only
    on the non-Hebrew path — for `language = "he"` the sentinel-bearing
    keyword message is discarded and the (possibly short, non-sentinel)
    vector result is returned instead, as `c5_counterexample` exhibits. -/
theorem c5_fallback_semantics (st : RAGState) (idx : FaissIndex) (query : String)
    (hmo_name insurance_tier : Option String) (top_k : Nat) (language : String)
    (enh v kw : String)
    (hfi : st.faissIndex = some idx) (hemb : st.embeddings ≠ [])
    (henh : enh = enhance_query_for_multilingual_search query language)
    (hv : v = vector_search st idx enh top_k language hmo_name)
    (hkw : kw = keyword_search st enh top_k language hmo_name) :
    (¬(strContains v no_info_sentinel = true ∨ v.length < 100) →
      search_services st query hmo_name insurance_tier top_k language = v) ∧
    ((strContains v no_info_sentinel = true ∨ v.length < 100) →
      (keywordLoop (keywordTerms enh) hmo_name top_k st.chunks [] ≠ [] →
        kw = kw_header language ++ String.intercalate "\n\n"
          ((keywordLoop (keywordTerms enh) hmo_name top_k st.chunks []).map kwBlock) ∧
        (strContains kw no_info_sentinel = false →
          search_services st query hmo_name insurance_tier top_k language = kw)) ∧
      (keywordLoop (keywordTerms enh) hmo_name top_k st.chunks [] = [] →
        kw = no_relevant_msg language ∧
        search_services st query hmo_name insurance_tier top_k language =
          (if language = "he" then v else no_relevant_msg language))) := by
  subst henh
  subst hv
  subst hkw
  have hss : search_services st query hmo_name insurance_tier top_k language =
      (if strContains (vector_search st idx
            (enhance_query_for_multilingual_search query language) top_k language
            hmo_name) no_info_sentinel ||
          (vector_search st idx (enhance_query_for_multilingual_search query language)
            top_k language hmo_name).length < 100 then
        (if keyword_search st (enhance_query_for_multilingual_search query language)
              top_k language hmo_name ≠ "" &&
            !strContains (keyword_search st
              (enhance_query_for_multilingual_search query language) top_k language
              hmo_name) no_info_sentinel then
          keyword_search st (enhance_query_for_multilingual_search query language)
            top_k language hmo_name
        else
          vector_search st idx (enhance_query_for_multilingual_search query language)
            top_k language hmo_name)
      else
        vector_search st idx (enhance_query_for_multilingual_search query language)
          top_k language hmo_name) := by
    simp only [search_services, hfi]
    rw [if_pos hemb]
  refine ⟨?_, ?_⟩
  · intro h
    rw [hss, if_neg (by simpa using h)]
  · intro htrig
    refine ⟨?_, ?_⟩
    · intro hne
      have hkweq : keyword_search st
          (enhance_query_for_multilingual_search query language) top_k language
          hmo_name = kw_header language ++ String.intercalate "\n\n"
            ((keywordLoop (keywordTerms
              (enhance_query_for_multilingual_search query language)) hmo_name top_k
              st.chunks []).map kwBlock) := by
        unfold keyword_search
        rw [if_pos (by simpa using hne)]
      refine ⟨hkweq, ?_⟩
      intro hnosent
      have hkwne : keyword_search st
          (enhance_query_for_multilingual_search query language) top_k language
          hmo_name ≠ "" := by
        rw [hkweq]
        intro hcontra
        have hlen := congrArg String.length hcontra
        rw [String.length_append] at hlen
        have hp := kw_header_length_pos language
        simp at hlen
        omega
      rw [hss, if_pos (by simpa using htrig), if_pos (by simp [hkwne, hnosent])]
    · intro hempt
      have hkweq : keyword_search st
          (enhance_query_for_multilingual_search query language) top_k language
          hmo_name = no_relevant_msg language := by
        unfold keyword_search
        rw [hempt]
        simp
      refine ⟨hkweq, ?_⟩
      rw [hss, if_pos (by simpa using htrig)]
      by_cases hlang : language = "he"
      · rw [if_pos hlang]
        rw [if_neg ?_]
        rw [hkweq, hlang]
        have : strContains (no_relevant_msg "he") no_info_sentinel = true := by decide
        simp [this]
      · rw [if_neg hlang]
        have hmsg : no_relevant_msg language =
            "No relevant information found in the database for your question." := by
          unfold no_relevant_msg
          rw [if_neg hlang]
        rw [if_pos ?_, hkweq]
        rw [hkweq, hmsg]
        simp
        decide

/-- The concrete knowledge-base state of the C5 counterexample: one source
    document named "s" with body "קצר", no embedding provider (hash
    fallback embeddings). -/
def c5_state : RAGState := load_and_process none [("s", "קצר")]

/-- The vector-search result of the C5 counterexample run. -/
def c5_vector_result : String :=
  vector_search c5_state ⟨128, c5_state.embeddings⟩
    (enhance_query_for_multilingual_search "xyz" "he") 3 "he" (some "maccabi")

set_option maxRecDepth 1000000 in
unseal Rat.add Rat.mul Rat.sub Rat.inv in
/-- Claim C5 counterexample: on the corpus [("s", "קצר")] with query "xyz",
    filter "maccabi", top_k 3 and language "he", the keyword fallback runs
    (the vector result is a single short source block, under 100 characters
    and without the sentinel), the fallback finds nothing — and
    `search_services` returns the vector-search block, not the localized
    "no relevant information" sentinel the claim promises. -/
theorem c5_counterexample :
    c5_state.faissIndex = some ⟨128, c5_state.embeddings⟩ ∧
    (strContains c5_vector_result no_info_sentinel = false ∧
     c5_vector_result.length < 100) ∧
    keywordLoop (keywordTerms (enhance_query_for_multilingual_search "xyz" "he"))
      (some "maccabi") 3 c5_state.chunks [] = [] ∧
    search_services c5_state "xyz" (some "maccabi") none 3 "he" = c5_vector_result ∧
    c5_vector_result ≠ no_relevant_msg "he" := by
  refine ⟨?_, ⟨?_, ?_⟩, ?_, ?_, ?_⟩ <;> decide

set_option maxRecDepth 1000000 in
unseal Rat.add Rat.mul Rat.sub Rat.inv in
theorem c5_witness :
    keyword_search c5_state (enhance_query_for_multilingual_search "xyz" "he") 3 "he"
      (some "maccabi") = no_relevant_msg "he" ∧
    search_services c5_state "xyz" (some "maccabi") none 3 "he" =
      (if "he" = "he" then c5_vector_result else no_relevant_msg "he") :=
  ((c5_fallback_semantics c5_state ⟨128, c5_state.embeddings⟩ "xyz" (some "maccabi")
      none 3 "he" (enhance_query_for_multilingual_search "xyz" "he") c5_vector_result
      (keyword_search c5_state (enhance_query_for_multilingual_search "xyz" "he") 3
        "he" (some "maccabi"))
      (by decide) (by decide) rfl rfl rfl).2
    (Or.inr (by decide))).2 (by decide)

end RAGKB
